import Mathlib

/-!
Verification of the core interval operations of `poverlap.py`
(interval extension, distance-bounded shuffling, reservoir sampling,
the fixle type-swap setup, region filtering and the permutation-test
aggregation), shallowly embedded in Lean.

Conventions of the embedding:
* a parsed BED row is a `Record` (field 0 = chrom, field 1 = start,
  field 2 = end, fields 3.. = auxiliary strings); `fixle` works on the
  raw token lists, so it is modelled on `List String` rows;
* the random source (`random.randint`) is an oracle passed in as a
  function of the row index, with range hypotheses added where the
  stated property needs them;
* code that shells out (`bedtools intersect`, the parallel `run`
  invocations) is modelled by an oracle function for the external
  service, exactly as the spec treats the overlap counter as a
  black box;
* Python exceptions (`assert`, `ZeroDivisionError`) become `Except`
  results.
-/

set_option maxHeartbeats 1000000

/-- A parsed BED record: `toks[0]` = chromosome, `toks[1]` = start,
`toks[2]` = end, `toks[3:]` = auxiliary fields kept verbatim. -/
structure Record where
  chrom : String
  start : Int
  stop : Int
  rest : List String
deriving Repr, DecidableEq

/-- The frame of a record: every field except start/end. -/
def frameOf (r : Record) : String × List String := (r.chrom, r.rest)

/-! ### `extend_bed` (poverlap.py lines 26-36)

`bases /= 2` is Python-2 integer (floor) division; then
`toks[1] = max(0, toks[1] - bases)`, `toks[2] = max(0, toks[2] + bases)`,
and an inverted interval is collapsed to the (floor) midpoint. -/

/-- One row of `extend_bed`, with `half` the already halved width. -/
def extendRecord (half : Int) (r : Record) : Record :=
  let t1 : Int := max 0 (r.start - half)
  let t2 : Int := max 0 (r.stop + half)
  if t1 > t2 then { r with start := (t1 + t2).fdiv 2, stop := (t1 + t2).fdiv 2 }
  else { r with start := t1, stop := t2 }

/-- Function `extend_bed`: halve `bases` (floor division, as Python 2 `/=`) and
apply the per-row update to every row in order. -/
def extend_bed (bases : Int) (rows : List Record) : List Record :=
  rows.map (extendRecord (bases.fdiv 2))

/-! ### `distance_shuffle` (poverlap.py lines 103-117)

For each row an offset `d = randint(-dist, dist)` is drawn and both
coordinates become `max(0, loc + d)`.  The oracle `rand i` is the
offset drawn for row `i`. -/

/-- One row of `distance_shuffle`: both coordinates are shifted by `d`
and each is clamped at 0 independently (`max(0, int(loc) + d)`). -/
def shuffleRecord (d : Int) (r : Record) : Record :=
  { r with start := max 0 (r.start + d), stop := max 0 (r.stop + d) }

/-- The loop of `distance_shuffle`, carrying the row index `i`. -/
def distanceShuffleAux (rand : Nat → Int) : Nat → List Record → List Record
  | _, [] => []
  | i, r :: rs => shuffleRecord (rand i) r :: distanceShuffleAux rand (i + 1) rs

/-- Function `distance_shuffle`: shift row `i` by the oracle offset `rand i`. -/
def distance_shuffle (rand : Nat → Int) (rows : List Record) : List Record :=
  distanceShuffleAux rand 0 rows

/-! ### Helper lemmas -/

theorem extendRecord_frame (half : Int) (r : Record) :
    frameOf (extendRecord half r) = frameOf r := by
  unfold extendRecord
  dsimp only
  split <;> rfl

theorem shuffleRecord_frame (d : Int) (r : Record) :
    frameOf (shuffleRecord d r) = frameOf r := rfl

theorem distanceShuffleAux_frame (rand : Nat → Int) :
    ∀ (i : Nat) (rows : List Record),
      (distanceShuffleAux rand i rows).map frameOf = rows.map frameOf
  | _, [] => rfl
  | i, r :: rs => by
    simp [distanceShuffleAux, shuffleRecord_frame, distanceShuffleAux_frame rand (i + 1) rs]

/-- C3. For every input interval set and every extension width
`bases ≥ 0`, every record output by `extend_bed` satisfies
`start ≤ end` and `start ≥ 0`: half = `bases / 2` (integer division) is
subtracted from start and added to end, start is clamped at 0, and an
interval that would invert is collapsed to its midpoint, so the
assertion `start ≤ end` never fails. -/
theorem extend_bed_start_le_stop (bases : Int) (hb : 0 ≤ bases)
    (rows : List Record) :
    ∀ r ∈ extend_bed bases rows, 0 ≤ r.start ∧ r.start ≤ r.stop := by
  intro r hr
  rcases List.mem_map.mp hr with ⟨s, _, rfl⟩
  unfold extendRecord
  dsimp only
  split
  · constructor
    · exact Int.fdiv_nonneg (by positivity) (by norm_num)
    · exact le_refl _
  · refine ⟨le_max_left _ _, ?_⟩
    dsimp only
    omega

/-- Witness for C3 at the documented boundary scenario: record `chr1 5 10` with
`bases = 20` extends to `chr1 0 20`, which has `0 ≤ start ≤ end`. -/
theorem extend_bed_start_le_stop_witness :
    0 ≤ (⟨"chr1", 0, 20, []⟩ : Record).start ∧
      (⟨"chr1", 0, 20, []⟩ : Record).start ≤ (⟨"chr1", 0, 20, []⟩ : Record).stop :=
  extend_bed_start_le_stop 20 (by norm_num) [⟨"chr1", 5, 10, []⟩]
    ⟨"chr1", 0, 20, []⟩ (by decide)

/-- C1, code evaluation. At the chromosome edge the code does not
preserve the interval width: with offset `d = -10` (within range for
`dist = 500000`), record `chr1 5 10` of width 5 becomes `chr1 0 0` of
width 0, because `distance_shuffle` clamps start and end at 0
independently instead of keeping `end = start_before_clamp + width`. -/
theorem distance_shuffle_shrinks_at_edge :
    distance_shuffle (fun _ => -10) [⟨"chr1", 5, 10, []⟩] = [⟨"chr1", 0, 0, []⟩] ∧
      (⟨"chr1", 0, 0, []⟩ : Record).stop - (⟨"chr1", 0, 0, []⟩ : Record).start ≠
        (⟨"chr1", 5, 10, []⟩ : Record).stop - (⟨"chr1", 5, 10, []⟩ : Record).start := by
  constructor
  · rfl
  · decide

/-! ### `bed_sample` (poverlap.py lines 83-101)

Reservoir sampling over the input lines.  `n = int(n)` is taken with no
validation; for the `i`-th line (0-based), if `i < n` the line is
appended, else `replace_idx = randint(0, i)` is drawn and the line
overwrites slot `replace_idx` when `replace_idx < n`.  The oracle
`rand i` is the value `randint(0, i)` drawn at step `i`; the theorems
hold for every oracle, in particular for one ranging in `[0, i]`. -/

/-- One step of the reservoir loop body. -/
def bedSampleStep {α : Type _} (k : Int) (res : List α) (i : Nat) (line : α)
    (r : Nat) : List α :=
  if (i : Int) < k then res ++ [line]
  else if (r : Int) < k then res.set r line
  else res

/-- The reservoir loop over the remaining lines, carrying the line
index `i` and the reservoir `res`. -/
def bedSampleAux {α : Type _} (rand : Nat → Nat) (k : Int) :
    List α → Nat → List α → List α
  | [], _, res => res
  | line :: rest, i, res =>
      bedSampleAux rand k rest (i + 1) (bedSampleStep k res i line (rand i))

/-- Function `bed_sample`: reservoir sampling of `k` lines from `stream`. -/
def bed_sample {α : Type _} (rand : Nat → Nat) (k : Int) (stream : List α) :
    List α :=
  bedSampleAux rand k stream 0 []

theorem bedSampleStep_length {α : Type _} (k : Int) (res : List α) (i : Nat)
    (line : α) (r : Nat) :
    (bedSampleStep k res i line r).length =
      if (i : Int) < k then res.length + 1 else res.length := by
  unfold bedSampleStep
  split
  · simp
  · split <;> simp

theorem bedSampleAux_length {α : Type _} (rand : Nat → Nat) (k : Int) :
    ∀ (rest : List α) (i : Nat) (res : List α),
      res.length = min k.toNat i →
      (bedSampleAux rand k rest i res).length = min k.toNat (i + rest.length)
  | [], i, res, h => by simpa using h
  | line :: rest, i, res, h => by
    rw [bedSampleAux, bedSampleAux_length rand k rest (i + 1) _ ?_]
    · simp only [List.length_cons]
      congr 1
      omega
    · rw [bedSampleStep_length]
      split <;> omega

theorem bedSampleAux_mem {α : Type _} (rand : Nat → Nat) (k : Int) :
    ∀ (rest : List α) (i : Nat) (res : List α),
      ∀ x ∈ bedSampleAux rand k rest i res, x ∈ res ∨ x ∈ rest
  | [], _, _, x, hx => Or.inl hx
  | line :: rest, i, res, x, hx => by
    rcases bedSampleAux_mem rand k rest (i + 1) _ x hx with h | h
    · unfold bedSampleStep at h
      split at h
      · rcases List.mem_append.mp h with h | h
        · exact Or.inl h
        · exact Or.inr (List.mem_singleton.mp h ▸ List.mem_cons_self _ _)
      · split at h
        · rcases List.mem_or_eq_of_mem_set h with h | h
          · exact Or.inl h
          · exact Or.inr (by simp [h])
        · exact Or.inl h
    · exact Or.inr (List.mem_cons_of_mem _ h)

theorem nodup_set_of_not_mem {α : Type _} :
    ∀ {l : List α} {a : α}, l.Nodup → a ∉ l → ∀ r : Nat, (l.set r a).Nodup
  | [], _, _, _, _ => List.nodup_nil
  | x :: xs, a, h, ha, 0 => by
    rw [List.set]
    rw [List.nodup_cons] at h ⊢
    exact ⟨fun hmem => ha (List.mem_cons_of_mem _ hmem), h.2⟩
  | x :: xs, a, h, ha, r + 1 => by
    rw [List.set]
    rw [List.nodup_cons] at h ⊢
    refine ⟨fun hmem => ?_, nodup_set_of_not_mem h.2 (fun hm => ha (List.mem_cons_of_mem _ hm)) r⟩
    rcases List.mem_or_eq_of_mem_set hmem with hm | hm
    · exact h.1 hm
    · exact ha (hm ▸ List.mem_cons_self x xs)

theorem bedSampleAux_nodup {α : Type _} (rand : Nat → Nat) (k : Int) :
    ∀ (rest : List α) (i : Nat) (res : List α),
      (res ++ rest).Nodup → (bedSampleAux rand k rest i res).Nodup
  | [], _, res, h => by simpa using h
  | line :: rest, i, res, h => by
    rw [bedSampleAux]
    apply bedSampleAux_nodup rand k rest (i + 1)
    rw [List.nodup_append] at h
    obtain ⟨hres, hlr, hdisj⟩ := h
    rw [List.nodup_cons] at hlr
    have hline : line ∉ res := fun hm => hdisj hm (List.mem_cons_self _ _)
    unfold bedSampleStep
    split
    · rw [List.append_assoc]
      rw [List.nodup_append]
      exact ⟨hres, List.nodup_cons.mpr hlr, hdisj⟩
    · split
      · rw [List.nodup_append]
        refine ⟨nodup_set_of_not_mem hres hline _, hlr.2, fun x hx hx2 => ?_⟩
        rcases List.mem_or_eq_of_mem_set hx with hm | hm
        · exact hdisj hm (List.mem_cons_of_mem _ hx2)
        · exact hlr.1 (hm ▸ hx2)
      · rw [List.nodup_append]
        exact ⟨hres, hlr.2, fun x hx hx2 => hdisj hx (List.mem_cons_of_mem _ hx2)⟩

/-- C2. For every positive `k` and finite stream of `n` lines, the
reservoir sampler returns exactly `min k n` lines in a single pass, and
when the input lines are pairwise distinct so are the sampled ones
(each input record appears at most once: sampling without
replacement). -/
theorem bed_sample_size_no_replacement {α : Type _} (k : Int) (hk : 0 < k)
    (rand : Nat → Nat) (stream : List α) :
    (bed_sample rand k stream).length = min k.toNat stream.length ∧
      (stream.Nodup → (bed_sample rand k stream).Nodup) := by
  constructor
  · have h := bedSampleAux_length rand k stream 0 [] (by simp)
    simpa using h
  · intro hs
    exact bedSampleAux_nodup rand k stream 0 [] (by simpa using hs)

/-- Witness for C2: sampling `k = 2` lines from the 3-line stream
`[0, 1, 2]` yields `min 2 3 = 2` pairwise-distinct lines. -/
theorem bed_sample_size_no_replacement_witness :
    (bed_sample (fun i => i % 2) 2 [0, 1, 2]).length = min (2 : Int).toNat 3 ∧
      (bed_sample (fun i => i % 2) 2 [0, 1, 2]).Nodup := by
  have h := bed_sample_size_no_replacement 2 (by norm_num) (fun i => i % 2) [0, 1, 2]
  exact ⟨h.1, h.2 (by decide)⟩

/-- C8, counterexample. The code performs no validation of the
sample size: `bed_sample` is a total function with no error path, and
at `k = 0` on a non-empty stream it produces its normal output, the
empty sample, rather than failing with an input error. -/
theorem bed_sample_nonpositive_counterexample :
    bed_sample (fun _ => 0) 0 ["chr1\t1\t2"] = ([] : List String) := rfl

theorem bedSampleStep_nonpos {α : Type _} (k : Int) (hk : k ≤ 0)
    (res : List α) (i : Nat) (line : α) (r : Nat) :
    bedSampleStep k res i line r = res := by
  unfold bedSampleStep
  rw [if_neg (by omega), if_neg (by omega)]

theorem bedSampleAux_nonpos {α : Type _} (rand : Nat → Nat) (k : Int)
    (hk : k ≤ 0) :
    ∀ (rest : List α) (i : Nat) (res : List α),
      bedSampleAux rand k rest i res = res
  | [], _, _ => rfl
  | line :: rest, i, res => by
    rw [bedSampleAux, bedSampleStep_nonpos k hk,
      bedSampleAux_nonpos rand k hk rest (i + 1) res]

/-- C8, amended. `bed_sample` does not validate the requested
sample size: for every `k ≤ 0` it returns the empty sample (zero
records) for any stream and any random draw, without any error. -/
theorem bed_sample_nonpositive_empty {α : Type _} (k : Int) (hk : k ≤ 0)
    (rand : Nat → Nat) (stream : List α) :
    bed_sample rand k stream = [] :=
  bedSampleAux_nonpos rand k hk stream 0 []

/-- Witness for the amended C8 at `k = -3` on a two-line stream. -/
theorem bed_sample_nonpositive_empty_witness :
    bed_sample (fun _ => 0) (-3) ["a", "b"] = ([] : List String) :=
  bed_sample_nonpositive_empty (-3) (by norm_num) (fun _ => 0) ["a", "b"]

/-- C7. `distance_shuffle` and `extend_bed` keep the number and
order of records and leave chromosome and auxiliary fields unchanged,
index for index: only start and end may differ. -/
theorem shuffle_extend_frame (rand : Nat → Int) (bases : Int)
    (rows : List Record) :
    (distance_shuffle rand rows).map frameOf = rows.map frameOf ∧
      (extend_bed bases rows).map frameOf = rows.map frameOf := by
  constructor
  · exact distanceShuffleAux_frame rand 0 rows
  · unfold extend_bed
    rw [List.map_map]
    apply List.map_congr_left
    intro r _
    exact extendRecord_frame _ r

/-! ### The permutation-test aggregation (poverlap.py lines 206-211;
the same three formulas appear at lines 77-80 inside `fixle`)

`observed = int(run(orig_cmd))` and each simulated count
`int(run(shuf_cmd))` come from the external overlap-counting service;
they are modelled by the oracle `runShuf : Nat → Int` giving the count
of round `i`.  `sims = pool.imap(run, [shuf_cmd] * n)` is `n` rounds;
`mean = sum(sims)/float(len(sims))` and
`p = sum(s >= observed for s in sims)/float(len(sims))`. -/

/-- Result record of one `poverlap` run. -/
structure TestResult where
  observed : Int
  simulated : List Int
  mean : ℚ
  pValue : ℚ

/-- Python expression `sum(sims) / float(len(sims))`. -/
def simMean (sims : List Int) : ℚ := (sims.sum : ℚ) / (sims.length : ℚ)

/-- Python expression `sum((s >= observed) for s in sims) / float(len(sims))`. -/
def simPValue (observed : Int) (sims : List Int) : ℚ :=
  ((sims.countP fun s => decide (observed ≤ s)) : ℚ) / (sims.length : ℚ)

/-- The aggregation step of `poverlap`: `n` independent rounds of the
shuffle-and-count oracle, then mean and one-sided empirical p-value. -/
def poverlapResult (observed : Int) (runShuf : Nat → Int) (n : Nat) :
    TestResult :=
  let sims := (List.range n).map runShuf
  { observed := observed, simulated := sims,
    mean := simMean sims, pValue := simPValue observed sims }

/-- C4. The aggregation counts ties (`s >= observed`) toward
non-significance: when every simulated count equals the observed count
(an identity shuffle), the p-value is exactly 1 and the simulated mean
equals the observed count. -/
theorem poverlap_identity_shuffle_pvalue_one (observed : Int) (n : Nat)
    (hn : 0 < n) (runShuf : Nat → Int)
    (hid : ∀ i, i < n → runShuf i = observed) :
    (poverlapResult observed runShuf n).pValue = 1 ∧
      (poverlapResult observed runShuf n).mean = (observed : ℚ) := by
  have hmem : ∀ s ∈ (List.range n).map runShuf, s = observed := by
    intro s hs
    rcases List.mem_map.mp hs with ⟨i, hi, rfl⟩
    exact hid i (List.mem_range.mp hi)
  have hlen : ((List.range n).map runShuf).length = n := by simp
  have hne : (n : ℚ) ≠ 0 := Nat.cast_ne_zero.mpr (Nat.pos_iff_ne_zero.mp hn)
  constructor
  · show simPValue observed ((List.range n).map runShuf) = 1
    unfold simPValue
    rw [List.countP_eq_length.mpr fun s hs => by simp [hmem s hs], hlen]
    exact div_self hne
  · show simMean ((List.range n).map runShuf) = (observed : ℚ)
    unfold simMean
    rw [List.sum_eq_card_nsmul _ observed hmem, hlen]
    push_cast
    field_simp

/-- Witness for C4: `observed = 3`, two rounds both simulating 3, give
p-value 1 and mean 3. -/
theorem poverlap_identity_shuffle_pvalue_one_witness :
    (poverlapResult 3 (fun _ => 3) 2).pValue = 1 ∧
      (poverlapResult 3 (fun _ => 3) 2).mean = ((3 : Int) : ℚ) :=
  poverlap_identity_shuffle_pvalue_one 3 2 (by norm_num) (fun _ => 3)
    (fun _ _ => rfl)

/-- C5, counterexample. With `trials = 1`, `observed = 1 > 0` and
the single round simulating 0 overlaps, the p-value is `0 < 1/trials`:
the claimed lower bound `1/trials` fails because the observed count is
not included among the simulated counts. -/
theorem poverlap_pvalue_below_lower_bound :
    0 < (1 : Int) ∧
      (poverlapResult 1 (fun _ => 0) 1).simulated.length = 1 ∧
      (poverlapResult 1 (fun _ => 0) 1).pValue < 1 / (1 : ℚ) := by
  refine ⟨by norm_num, rfl, ?_⟩
  have h : (poverlapResult 1 (fun _ => 0) 1).pValue = 0 := by
    show simPValue 1 ((List.range 1).map fun _ => (0 : Int)) = 0
    simp [simPValue, List.countP_cons]
  rw [h]
  norm_num

/-- C5, amended. For every run with `trials = n ≥ 1`, the list of
simulated counts has length exactly `n`, and the p-value lies in
`[0, 1]` (it can be 0 even when the observed count is positive, since
the observed count is not included among the simulated ones). -/
theorem poverlap_sims_length_pvalue_range (observed : Int)
    (runShuf : Nat → Int) (n : Nat) (hn : 0 < n) :
    (poverlapResult observed runShuf n).simulated.length = n ∧
      0 ≤ (poverlapResult observed runShuf n).pValue ∧
      (poverlapResult observed runShuf n).pValue ≤ 1 := by
  have hlen : ((List.range n).map runShuf).length = n := by simp
  refine ⟨hlen, ?_, ?_⟩
  · show 0 ≤ simPValue observed ((List.range n).map runShuf)
    unfold simPValue
    positivity
  · show simPValue observed ((List.range n).map runShuf) ≤ 1
    unfold simPValue
    rw [div_le_one (by rw [hlen]; exact_mod_cast hn)]
    exact_mod_cast List.countP_le_length (fun s => decide (observed ≤ s))

/-- Witness for the amended C5: one round, `observed = 5`, simulated
count 7. -/
theorem poverlap_sims_length_pvalue_range_witness :
    (poverlapResult 5 (fun _ => 7) 1).simulated.length = 1 ∧
      0 ≤ (poverlapResult 5 (fun _ => 7) 1).pValue ∧
      (poverlapResult 5 (fun _ => 7) 1).pValue ≤ 1 :=
  poverlap_sims_length_pvalue_range 5 (fun _ => 7) 1 (by norm_num)

/-! ### `zclude` (poverlap.py lines 119-139)

`if other is None: return bed` happens before anything else, so no
diagnostic is computed.  Otherwise the rows are filtered through the
external intersection service (`bedtools intersect -v` / `-u`,
modelled by the per-record overlap oracle `overlapsMask`), and the
diagnostic percentage `100 * float(n_orig - n_after) / n_orig` raises
`ZeroDivisionError` when the input had no rows.  The result carries
the filtered rows together with the list of emitted diagnostics. -/

/-- Function `zclude`: restrict `bed` by the optional mask `other`. -/
def zclude (overlapsMask : Record → List Record → Bool) (bed : List Record)
    (other : Option (List Record)) (exclude : Bool) :
    Except String (List Record × List String) :=
  match other with
  | none => .ok (bed, [])
  | some mask =>
    let n_orig := bed.length
    let tmp := if exclude then bed.filter (fun r => ! overlapsMask r mask)
      else bed.filter (fun r => overlapsMask r mask)
    let n_after := tmp.length
    if n_orig = 0 then .error "ZeroDivisionError: float division by zero"
    else
      let clude := if exclude then "exclud" else "includ"
      .ok (tmp, ["reduced from " ++ toString n_orig ++ " to " ++
        toString n_after ++ " by " ++ clude ++ "ing"])

/-- C9. With no mask (`other is None`), `zclude` returns the input
set unchanged in both exclude and include mode, and emits no
diagnostic. -/
theorem zclude_none_identity (overlapsMask : Record → List Record → Bool)
    (bed : List Record) (exclude : Bool) :
    zclude overlapsMask bed none exclude = .ok (bed, []) := rfl

/-- C10. With any non-None mask and either mode, `zclude` on an
empty interval set fails (the percentage in the diagnostic divides by the
original record count, which is zero) instead of returning the empty
filtered set. -/
theorem zclude_empty_bed_fails (overlapsMask : Record → List Record → Bool)
    (mask : List Record) (exclude : Bool) :
    zclude overlapsMask [] (some mask) exclude =
      .error "ZeroDivisionError: float division by zero" := rfl

/-! ### `fixle` (poverlap.py lines 38-80)

Rows are raw token lists; `type_col` is 1-based and decremented on
entry.  A row labeled `atype` goes to the fixed `a` file; every other
row goes to the background file, and is additionally counted in
`n_btypes` when labeled `btype`.  `assert n_btypes > 0` fails with
`("no intervals found for", btype)`; each of the `n` rounds then
reservoir-samples `n_btypes` rows from the background file. -/

/-- Label of a row: `toks[type_col]` (rows are assumed to have the column). -/
def typeLabel (tc : Nat) (toks : List String) : String := toks.getD tc ""

/-- The rows written to the fixed `a` file: label equals `atype`. -/
def fixleA (tc : Nat) (atype : String) (rows : List (List String)) :
    List (List String) :=
  rows.filter (fun t => typeLabel tc t == atype)

/-- The background pool (`other` file): every row not labeled `atype`. -/
def fixleOther (tc : Nat) (atype : String) (rows : List (List String)) :
    List (List String) :=
  rows.filter (fun t => ! (typeLabel tc t == atype))

/-- Count `n_btypes`: rows of the background pool labeled `btype`. -/
def fixleNB (tc : Nat) (atype btype : String) (rows : List (List String)) :
    Nat :=
  ((fixleOther tc atype rows).filter (fun t => typeLabel tc t == btype)).length

/-- The partitioning and assertion phase of `fixle` (lines 52-68):
either the assertion failure, or the fixed rows, the background pool
and the per-round sample size `n_btypes`. -/
def fixleSetup (type_col : Nat) (atype btype : String)
    (rows : List (List String)) :
    Except String (List (List String) × List (List String) × Nat) :=
  let tc := type_col - 1
  let nb := fixleNB tc atype btype rows
  if nb = 0 then .error ("no intervals found for " ++ btype)
  else .ok (fixleA tc atype rows, fixleOther tc atype rows, nb)

/-- C6. `fixle` fails with the configuration error exactly when no
record labeled `btype` exists among the rows not labeled `atype`;
otherwise the fixed part is precisely the `atype` rows, and each
randomization round draws exactly `n_btypes` records from the
background pool of all non-`atype` rows — every drawn record comes
from that pool, and the draw is without replacement (distinct pool
rows stay distinct in the sample). -/
theorem fixle_error_iff_and_pool_draw (type_col : Nat) (atype btype : String)
    (rows : List (List String)) :
    ((∃ e, fixleSetup type_col atype btype rows = .error e) ↔
      ∀ t ∈ rows, ¬(typeLabel (type_col - 1) t ≠ atype ∧
        typeLabel (type_col - 1) t = btype)) ∧
    (∀ afix pool nb,
      fixleSetup type_col atype btype rows = .ok (afix, pool, nb) →
      afix = fixleA (type_col - 1) atype rows ∧
      pool = fixleOther (type_col - 1) atype rows ∧
      nb = fixleNB (type_col - 1) atype btype rows ∧
      ∀ rand : Nat → Nat,
        (bed_sample rand (nb : Int) pool).length = nb ∧
        (∀ x ∈ bed_sample rand (nb : Int) pool, x ∈ pool) ∧
        (pool.Nodup → (bed_sample rand (nb : Int) pool).Nodup)) := by
  constructor
  · unfold fixleSetup
    dsimp only
    constructor
    · intro he
      rcases he with ⟨e, he⟩
      split at he
      · intro t ht hcon
        rename_i hnb
        rw [fixleNB, List.length_eq_zero, List.filter_eq_nil] at hnb
        refine hnb t ?_ (by simp [hcon.2])
        rw [fixleOther, List.mem_filter]
        exact ⟨ht, by simp [hcon.1]⟩
      · exact absurd he (by simp)
    · intro hnone
      have hnb : fixleNB (type_col - 1) atype btype rows = 0 := by
        rw [fixleNB, List.length_eq_zero, List.filter_eq_nil]
        intro t ht
        rw [fixleOther, List.mem_filter] at ht
        have h1 : typeLabel (type_col - 1) t ≠ atype := by
          simpa using ht.2
        intro hbt
        exact hnone t ht.1 ⟨h1, by simpa using hbt⟩
      rw [if_pos hnb]
      exact ⟨"no intervals found for " ++ btype, rfl⟩
  · intro afix pool nb hok
    unfold fixleSetup at hok
    dsimp only at hok
    split at hok
    · exact absurd hok (by simp)
    · rename_i hnb
      injection hok with hok
      injection hok with ha hok
      injection hok with hp hn
      refine ⟨ha.symm, hp.symm, hn.symm, ?_⟩
      intro rand
      have hle : nb ≤ pool.length := by
        rw [hp.symm] at *
        rw [← hn]
        exact List.length_filter_le _ _
      refine ⟨?_, ?_, ?_⟩
      · have h := bedSampleAux_length rand (nb : Int) pool 0 [] (by simp)
        rw [bed_sample, h]
        rw [Int.toNat_natCast]
        omega
      · intro x hx
        rcases bedSampleAux_mem rand (nb : Int) pool 0 [] x hx with h | h
        · exact absurd h (List.not_mem_nil x)
        · exact h
      · intro hnd
        exact bedSampleAux_nodup rand (nb : Int) pool 0 [] (by simpa using hnd)

/-- A demonstration labeled set for fixle: 3 rows labeled Pol2, 5 labeled CTCF and
2 labeled otherwise, with the label in (1-based) column 4. -/
def fixleDemoRows : List (List String) :=
  [["chr1", "1", "2", "Pol2"], ["chr1", "3", "4", "Pol2"],
   ["chr1", "5", "6", "Pol2"], ["chr1", "7", "8", "CTCF"],
   ["chr1", "9", "10", "CTCF"], ["chr1", "11", "12", "CTCF"],
   ["chr1", "13", "14", "CTCF"], ["chr1", "15", "16", "CTCF"],
   ["chr1", "17", "18", "H3K4"], ["chr1", "19", "20", "H3K4"]]

/-- Witness for C6: on the demonstration set (keep Pol2, swap CTCF), the
setup succeeds and one concrete round draws 5 pairwise-distinct
records from the 7-row background pool. -/
theorem fixle_error_iff_and_pool_draw_witness :
    (bed_sample (fun i => i % 3) ((5 : Nat) : Int)
        (fixleOther 3 "Pol2" fixleDemoRows)).length = 5 ∧
      (bed_sample (fun i => i % 3) ((5 : Nat) : Int)
        (fixleOther 3 "Pol2" fixleDemoRows)).Nodup := by
  have h := (fixle_error_iff_and_pool_draw 4 "Pol2" "CTCF" fixleDemoRows).2
    (fixleA 3 "Pol2" fixleDemoRows) (fixleOther 3 "Pol2" fixleDemoRows) 5
    (by rfl)
  have hr := (h.2.2.2 (fun i => i % 3))
  exact ⟨hr.1, hr.2.2 (by decide)⟩
